import Mathlib

/-!
Verification of the MPEG-4 AudioSpecificConfig bit codec (package
mpeg4audio: Unmarshal / UnmarshalFromPos / Marshal / marshalSizeBits /
marshalSize / marshalTo) and of the peripheral AV1 OBU header parser
(pkg/codecs/av1/obu_header.go).

A byte buffer is embedded as its MSB-first bit expansion (`List Bool`):
bit `i` of the stream is bit `7 - i % 8` of byte `i / 8`.  The bit-cursor
primitives (the `bits` package) are not part of the provided sources, so
they are modelled from the spec's Bit Cursor contract.
-/

/-- Value of a bit string read MSB-first: the head bit is the most
significant. -/
def bitsVal : List Bool → Nat
  | [] => 0
  | b :: l => (if b then 1 else 0) * 2 ^ l.length + bitsVal l

/-- The `n`-bit MSB-first representation of `v % 2 ^ n`. -/
def natBits : Nat → Nat → List Bool
  | 0, _ => []
  | n + 1, v => decide (v / 2 ^ n % 2 = 1) :: natBits n v

/-- Errors of decoding, one constructor per distinct failure of the source:
`insufficientData` is the bit-reader's own error, the others are the
`fmt.Errorf` failures of `UnmarshalFromPos`. -/
inductive DecodeError where
  | insufficientData
  | unsupportedObjectType (v : Nat)
  | invalidSampleRateIndex (v : Nat)
  | notYetSupported
  | invalidChannelConfig (v : Nat)
  | invalidExtSampleRateIndex (v : Nat)
  | unsupported
deriving DecidableEq, Repr

/-- Modelled from the spec: the Bit Cursor's read operation — read `n`
unsigned bits MSB-first at bit position `pos`, advancing the position by
`n`, failing with the insufficient-data condition when fewer than `n` bits
remain. -/
def ReadBits (buf : List Bool) (pos n : Nat) : Except DecodeError (Nat × Nat) :=
  if pos + n ≤ buf.length then
    .ok (bitsVal ((buf.drop pos).take n), pos + n)
  else
    .error .insufficientData

/-- Modelled from the spec: the Bit Cursor's flag read — one bit as a
boolean. -/
def ReadFlag (buf : List Bool) (pos : Nat) : Except DecodeError (Bool × Nat) := do
  let (v, p) ← ReadBits buf pos 1
  pure (decide (v = 1), p)

theorem natBits_length (n v : Nat) : (natBits n v).length = n := by
  induction n generalizing v with
  | zero => rfl
  | succ n ih => simp [natBits, ih]

theorem bitsVal_natBits (n v : Nat) : bitsVal (natBits n v) = v % 2 ^ n := by
  induction n generalizing v with
  | zero => simp [natBits, bitsVal, Nat.mod_one]
  | succ n ih =>
    have hsplit : v % 2 ^ (n + 1) = v % 2 ^ n + 2 ^ n * (v / 2 ^ n % 2) := by
      rw [pow_succ, Nat.mod_mul]
    rcases Nat.mod_two_eq_zero_or_one (v / 2 ^ n) with h | h <;>
      simp [natBits, bitsVal, natBits_length, ih, h, hsplit] <;> omega

theorem exc_ok_bind {ε α β : Type} (a : α) (f : α → Except ε β) :
    (Except.ok a >>= f : Except ε β) = f a := rfl

theorem exc_error_bind {ε α β : Type} (e : ε) (f : α → Except ε β) :
    (Except.error e >>= f : Except ε β) = .error e := rfl

theorem exc_pure {ε α : Type} (a : α) : (pure a : Except ε α) = .ok a := rfl

theorem exc_throw {ε α : Type} (e : ε) : (throw e : Except ε α) = .error e := rfl

instance {ε α : Type} [DecidableEq ε] [DecidableEq α] : DecidableEq (Except ε α) :=
  fun x y =>
  match x, y with
  | .error a, .error b =>
    if h : a = b then .isTrue (h ▸ rfl)
    else .isFalse (fun hc => h (Except.error.inj hc))
  | .error _, .ok _ => .isFalse (fun hc => Except.noConfusion hc)
  | .ok _, .error _ => .isFalse (fun hc => Except.noConfusion hc)
  | .ok a, .ok b =>
    if h : a = b then .isTrue (h ▸ rfl)
    else .isFalse (fun hc => h (Except.ok.inj hc))

/-- Reading `n > 0` bits at a position whose remainder starts with the
`n`-bit image of `v` yields `v % 2 ^ n` and steps past it, keeping the
tail. -/
theorem ReadBits_step {buf rest : List Bool} {pos n v : Nat} (hn : 0 < n)
    (h : buf.drop pos = natBits n v ++ rest) :
    ReadBits buf pos n = .ok (v % 2 ^ n, pos + n) ∧ buf.drop (pos + n) = rest := by
  have hlen : (buf.drop pos).length = n + rest.length := by
    rw [h]; simp [natBits_length]
  rw [List.length_drop] at hlen
  have hpos : pos + n ≤ buf.length := by omega
  have htake : (buf.drop pos).take n = natBits n v := by
    rw [h, List.take_left' (natBits_length n v)]
  have hdrop : buf.drop (pos + n) = rest := by
    rw [← List.drop_drop n pos buf, h, List.drop_left' (natBits_length n v)]
  refine ⟨?_, hdrop⟩
  rw [ReadBits, if_pos hpos, htake, bitsVal_natBits]

/-- Variant of `ReadBits_step` when the value already fits in `n` bits. -/
theorem ReadBits_step_of_lt {buf rest : List Bool} {pos n v : Nat} (hn : 0 < n)
    (hv : v < 2 ^ n) (h : buf.drop pos = natBits n v ++ rest) :
    ReadBits buf pos n = .ok (v, pos + n) ∧ buf.drop (pos + n) = rest := by
  have := ReadBits_step hn h
  rwa [Nat.mod_eq_of_lt hv] at this

/-- Reading a flag at a position whose remainder starts with bit `b`
yields `b` and steps past it. -/
theorem ReadFlag_step {buf rest : List Bool} {pos : Nat} {b : Bool}
    (h : buf.drop pos = b :: rest) :
    ReadFlag buf pos = .ok (b, pos + 1) ∧ buf.drop (pos + 1) = rest := by
  have hb : buf.drop pos = natBits 1 (if b then 1 else 0) ++ rest := by
    cases b <;> simpa [natBits] using h
  have hv : (if b then 1 else 0) < 2 ^ 1 := by cases b <;> decide
  have hs := ReadBits_step_of_lt (by decide) hv hb
  refine ⟨?_, hs.2⟩
  rw [ReadFlag, hs.1, exc_ok_bind]
  cases b <;> rfl

/-- Modelled from the spec: the three recognized audio object type codes
(base low-complexity profile, SBR extension, PS extension).  The numeric
values are the standard ISO 14496-3 audioObjectType codes; each fits in
5 bits as the encoding requires.  The constants themselves are declared in
a repository file not included in the sources. -/
def ObjectTypeAACLC : Nat := 2

/-- Modelled from the spec: the SBR extension profile code. -/
def ObjectTypeSBR : Nat := 5

/-- Modelled from the spec: the PS extension profile code. -/
def ObjectTypePS : Nat := 29

/-- Modelled from the spec: the fixed ordered sequence of 13 standard
sample rates (indices 0 to 12) shared by the core and extension rate
fields.  The table literal lives in a repository file not included in the
sources; the values are the standard ISO 14496-3 sampling-frequency
table. -/
def sampleRates : List Nat :=
  [96000, 88200, 64000, 48000, 44100, 32000, 24000, 22050, 16000,
   12000, 11025, 8000, 7350]

/-- Forward lookup used by decoding: `sampleRates[i]` (the decoder only
reaches this with `i ≤ 12`, inside the table). -/
def sampleRateOf (i : Nat) : Nat := sampleRates.getD i 0

/-- Modelled from the spec: the reverse mapping (rate to index), exact
value lookup, consistent with the forward table.  The map literal lives in
a repository file not included in the sources. -/
def reverseSampleRates (r : Nat) : Option Nat :=
  match r with
  | 96000 => some 0
  | 88200 => some 1
  | 64000 => some 2
  | 48000 => some 3
  | 44100 => some 4
  | 32000 => some 5
  | 24000 => some 6
  | 22050 => some 7
  | 16000 => some 8
  | 12000 => some 9
  | 11025 => some 10
  | 8000 => some 11
  | 7350 => some 12
  | _ => none

/-- The decoded record (Go struct `AudioSpecificConfig`).  Go's field
`Type` is renamed `type` because `Type` is reserved in Lean; `SampleRate`
and `ChannelCount` are Go `int`s holding only non-negative values here,
and `CoreCoderDelay` is Go `uint16`. -/
structure AudioSpecificConfig where
  type : Nat
  SampleRate : Nat
  ChannelCount : Nat
  ExtensionType : Nat
  ExtensionSampleRate : Nat
  FrameLengthFlag : Bool
  DependsOnCoreCoder : Bool
  CoreCoderDelay : Nat
deriving DecidableEq, Repr

/-- The Go zero value of the struct: the fresh receiver `Unmarshal` is
called on. -/
def AudioSpecificConfig.zero : AudioSpecificConfig :=
  { type := 0, SampleRate := 0, ChannelCount := 0, ExtensionType := 0,
    ExtensionSampleRate := 0, FrameLengthFlag := false,
    DependsOnCoreCoder := false, CoreCoderDelay := 0 }

/-- The sample-rate field decoding switch of `UnmarshalFromPos`: a 4-bit
index, values up to 12 select a table entry, 15 escapes to an explicit
24-bit rate, 13 and 14 fail.  The source inlines this switch twice (for the
core and the extension rate) differing only in the error built on an
invalid index, passed here as `mkErr`. -/
def readRateField (buf : List Bool) (pos : Nat) (mkErr : Nat → DecodeError) :
    Except DecodeError (Nat × Nat) := do
  let (idx, pos) ← ReadBits buf pos 4
  if idx ≤ 12 then
    pure (sampleRateOf idx, pos)
  else if idx = 15 then do
    let (tmp, pos) ← ReadBits buf pos 24
    pure (tmp, pos)
  else
    .error (mkErr idx)

/-- The channel-configuration decoding switch of `UnmarshalFromPos`:
code 0 is unsupported, 1 to 6 map to themselves, 7 maps to 8, anything
else is invalid. -/
def channelCountOf (v : Nat) : Except DecodeError Nat :=
  if v = 0 then .error .notYetSupported
  else if 1 ≤ v ∧ v ≤ 6 then .ok v
  else if v = 7 then .ok 8
  else .error (.invalidChannelConfig v)

/-- Decode (`UnmarshalFromPos`): field-by-field population of the receiver
`c0`, returning the populated record and the advanced bit position. -/
def AudioSpecificConfig.UnmarshalFromPos (c0 : AudioSpecificConfig)
    (buf : List Bool) (pos0 : Nat) :
    Except DecodeError (AudioSpecificConfig × Nat) := do
  let (tmp, pos) ← ReadBits buf pos0 5
  let c := { c0 with type := tmp }
  if ¬(c.type = ObjectTypeAACLC ∨ c.type = ObjectTypeSBR ∨ c.type = ObjectTypePS) then
    .error (DecodeError.unsupportedObjectType c.type)
  let (sr, pos) ← readRateField buf pos DecodeError.invalidSampleRateIndex
  let c := { c with SampleRate := sr }
  let (channelConfig, pos) ← ReadBits buf pos 4
  let cc ← channelCountOf channelConfig
  let c := { c with ChannelCount := cc }
  let (c, pos) ←
    if c.type = ObjectTypeSBR ∨ c.type = ObjectTypePS then do
      let c := { c with ExtensionType := c.type }
      let (esr, pos) ← readRateField buf pos DecodeError.invalidExtSampleRateIndex
      let c := { c with ExtensionSampleRate := esr }
      let (tmp, pos) ← ReadBits buf pos 5
      let c := { c with type := tmp }
      if c.type ≠ ObjectTypeAACLC then
        .error (DecodeError.unsupportedObjectType c.type)
      pure (c, pos)
    else
      pure (c, pos)
  let (flf, pos) ← ReadFlag buf pos
  let c := { c with FrameLengthFlag := flf }
  let (doc, pos) ← ReadFlag buf pos
  let c := { c with DependsOnCoreCoder := doc }
  let (c, pos) ←
    if c.DependsOnCoreCoder then do
      let (tmp, pos) ← ReadBits buf pos 14
      pure ({ c with CoreCoderDelay := tmp }, pos)
    else
      pure (c, pos)
  let (extensionFlag, pos) ← ReadFlag buf pos
  if extensionFlag then
    .error DecodeError.unsupported
  pure (c, pos)

/-- Decode from position zero (`Unmarshal`), keeping only the record. -/
def AudioSpecificConfig.Unmarshal (c0 : AudioSpecificConfig)
    (buf : List Bool) : Except DecodeError AudioSpecificConfig :=
  (c0.UnmarshalFromPos buf 0).map (fun p => p.1)

/-- Size pass (`marshalSizeBits`): total encoded bit length, mirroring the
write pass's conditional structure.  The base `5 + 4 + 2 + 1` covers the
5-bit type, the 4-bit channel configuration, the two flag bits and
the trailing extension-flag bit. -/
def AudioSpecificConfig.marshalSizeBits (c : AudioSpecificConfig) : Nat :=
  (5 + 4 + 2 + 1)
  + (if (reverseSampleRates c.SampleRate).isSome then 4 else 28)
  + (if c.ExtensionType = ObjectTypeSBR ∨ c.ExtensionType = ObjectTypePS then
      (if (reverseSampleRates c.ExtensionSampleRate).isSome then 4 else 28) + 5
    else 0)
  + (if c.DependsOnCoreCoder then 14 else 0)

/-- Byte size (`marshalSize`): the bit length rounded up to a whole
byte. -/
def AudioSpecificConfig.marshalSize (c : AudioSpecificConfig) : Nat :=
  c.marshalSizeBits / 8 + (if c.marshalSizeBits % 8 ≠ 0 then 1 else 0)

/-- The sample-rate field writing step of `marshalTo`: the 4-bit table
index when the rate has an exact reverse-table match, otherwise the escape
index 15 followed by the 24-bit literal rate. -/
def rateBits (r : Nat) : List Bool :=
  match reverseSampleRates r with
  | some i => natBits 4 i
  | none => natBits 4 15 ++ natBits 24 r

/-- The channel-configuration code written by `marshalTo`: counts 1 to 6
map to themselves, 8 maps to code 7, anything else is the encode-time
error. -/
def channelConfigOf (cc : Nat) : Option Nat :=
  if 1 ≤ cc ∧ cc ≤ 6 then some cc
  else if cc = 8 then some 7
  else none

/-- Write pass (`marshalTo`) as the emitted bit sequence: fields in exactly
the order decode reads them.  The source writes into a zero-initialized
buffer at a strictly advancing cursor, which appends; its final cursor
increment past the extension-flag bit leaves that bit zero, appending
`false`.  The only failure is an invalid channel count. -/
def AudioSpecificConfig.marshalTo (c : AudioSpecificConfig) : Option (List Bool) :=
  match channelConfigOf c.ChannelCount with
  | none => none
  | some code =>
    some (
      (if c.ExtensionType = ObjectTypeSBR ∨ c.ExtensionType = ObjectTypePS then
        natBits 5 c.ExtensionType
      else
        natBits 5 c.type)
      ++ rateBits c.SampleRate
      ++ natBits 4 code
      ++ (if c.ExtensionType = ObjectTypeSBR ∨ c.ExtensionType = ObjectTypePS then
            rateBits c.ExtensionSampleRate ++ natBits 5 c.type
          else [])
      ++ [c.FrameLengthFlag, c.DependsOnCoreCoder]
      ++ (if c.DependsOnCoreCoder then natBits 14 c.CoreCoderDelay else [])
      ++ [false])

/-- Encode (`Marshal`): allocate `marshalSize` zeroed bytes and run the
write pass; the bits past the written prefix stay zero. -/
def AudioSpecificConfig.Marshal (c : AudioSpecificConfig) : Option (List Bool) :=
  (c.marshalTo).map (fun w => w ++ List.replicate (8 * c.marshalSize - w.length) false)

/-- A reverse-table hit is an in-table index mapping back to the rate. -/
theorem reverseSampleRates_some {r i : Nat} (h : reverseSampleRates r = some i) :
    i ≤ 12 ∧ sampleRateOf i = r := by
  unfold reverseSampleRates at h
  split at h <;>
    first
    | exact Option.noConfusion h
    | (injection h with hi; subst hi; decide)

/-- The write pass emits exactly `marshalSizeBits` bits. -/
theorem marshalTo_length {c : AudioSpecificConfig} {w : List Bool}
    (h : c.marshalTo = some w) : w.length = c.marshalSizeBits := by
  rw [AudioSpecificConfig.marshalTo] at h
  rcases hc : channelConfigOf c.ChannelCount with _ | code <;> rw [hc] at h
  · exact absurd h (by simp)
  · simp only [Option.some.injEq] at h
    subst h
    rw [AudioSpecificConfig.marshalSizeBits]
    rcases hr : reverseSampleRates c.SampleRate with _ | i <;>
      rcases he : reverseSampleRates c.ExtensionSampleRate with _ | j <;>
      by_cases hx : c.ExtensionType = ObjectTypeSBR ∨ c.ExtensionType = ObjectTypePS <;>
      by_cases hd : c.DependsOnCoreCoder <;>
      simp [rateBits, hr, he, hx, hd, natBits_length]

/-- The rate value decode recovers from the rate field `marshalTo` writes:
the rate itself on a reverse-table hit, otherwise the low 24 bits of the
escape literal. -/
def truncRate (r : Nat) : Nat :=
  match reverseSampleRates r with
  | some _ => r
  | none => r % 2 ^ 24

/-- The record a successful decode of `marshalTo c`'s output produces into
receiver `c0`: `c`'s fields, with rates and delay truncated to their field
widths, and with the fields of conditional blocks that are absent from the
encoding left at the receiver's values. -/
def decodedOf (c0 c : AudioSpecificConfig) : AudioSpecificConfig :=
  { type := c.type
    SampleRate := truncRate c.SampleRate
    ChannelCount := c.ChannelCount
    ExtensionType :=
      if c.ExtensionType = ObjectTypeSBR ∨ c.ExtensionType = ObjectTypePS then
        c.ExtensionType
      else c0.ExtensionType
    ExtensionSampleRate :=
      if c.ExtensionType = ObjectTypeSBR ∨ c.ExtensionType = ObjectTypePS then
        truncRate c.ExtensionSampleRate
      else c0.ExtensionSampleRate
    FrameLengthFlag := c.FrameLengthFlag
    DependsOnCoreCoder := c.DependsOnCoreCoder
    CoreCoderDelay :=
      if c.DependsOnCoreCoder then c.CoreCoderDelay % 2 ^ 14
      else c0.CoreCoderDelay }

/-- Reading a rate field at a position whose remainder starts with the
bits `marshalTo` writes for rate `r` succeeds with `truncRate r` and steps
past the field, keeping the tail. -/
theorem readRateField_step {buf rest : List Bool} {pos r : Nat}
    (e : Nat → DecodeError) (h : buf.drop pos = rateBits r ++ rest) :
    readRateField buf pos e = .ok (truncRate r, pos + (rateBits r).length) ∧
      buf.drop (pos + (rateBits r).length) = rest := by
  rcases hr : reverseSampleRates r with _ | i
  · rw [rateBits, hr, List.append_assoc] at h
    have s1 := ReadBits_step_of_lt (v := 15) (by decide) (by decide) h
    have s2 := ReadBits_step (v := r) (n := 24) (by decide) s1.2
    have hlen : (rateBits r).length = 28 := by
      simp [rateBits, hr, natBits_length]
    have harith : pos + 4 + 24 = pos + 28 := by omega
    rw [harith] at s2
    constructor
    · rw [readRateField, s1.1, exc_ok_bind]
      dsimp only
      rw [if_neg (by decide), if_pos rfl, s2.1, exc_ok_bind, hlen]
      simp [truncRate, hr, exc_pure]
    · rw [hlen]; exact s2.2
  · obtain ⟨hi12, hiv⟩ := reverseSampleRates_some hr
    rw [rateBits, hr] at h
    have s1 := ReadBits_step_of_lt (v := i) (by decide) (by omega) h
    have hlen : (rateBits r).length = 4 := by
      simp [rateBits, hr, natBits_length]
    constructor
    · rw [readRateField, s1.1, exc_ok_bind]
      dsimp only
      rw [if_pos hi12, hlen]
      simp [truncRate, hr, hiv, exc_pure]
    · rw [hlen]; exact s1.2

/-- The channel code `marshalTo` writes decodes back to the channel
count. -/
theorem channelConfigOf_some {cc code : Nat} (h : channelConfigOf cc = some code) :
    code < 16 ∧ channelCountOf code = .ok cc := by
  unfold channelConfigOf at h
  split_ifs at h with h1 h2 <;> injection h with hc <;> subst hc
  · refine ⟨by omega, ?_⟩
    unfold channelCountOf
    rw [if_neg (by omega), if_pos h1]
  · subst h2
    decide

/-- Master round-trip lemma: decoding the write pass's output (with any
trailing bits) into any receiver yields `decodedOf` and consumes exactly
the emitted bits.  The only hypothesis beyond the write pass succeeding is
that the record's `type` is the base profile — the value the second type
field must carry for an extension encoding to decode. -/
theorem unmarshal_of_marshalTo (c0 c : AudioSpecificConfig) {w : List Bool}
    (rest : List Bool) (ht : c.type = ObjectTypeAACLC)
    (hw : c.marshalTo = some w) :
    c0.UnmarshalFromPos (w ++ rest) 0 = .ok (decodedOf c0 c, w.length) := by
  rcases hc : channelConfigOf c.ChannelCount with _ | code
  · rw [AudioSpecificConfig.marshalTo, hc] at hw
    exact Option.noConfusion hw
  · obtain ⟨hcode16, hcodeInv⟩ := channelConfigOf_some hc
    rw [AudioSpecificConfig.marshalTo, hc] at hw
    simp only [Option.some.injEq] at hw
    have htlt : c.type < 2 ^ 5 := by rw [ht]; decide
    by_cases hx : c.ExtensionType = ObjectTypeSBR ∨ c.ExtensionType = ObjectTypePS
    · have hxlt : c.ExtensionType < 2 ^ 5 := by
        rcases hx with h | h <;> rw [h] <;> decide
      have hguard : c.ExtensionType = ObjectTypeAACLC ∨ c.ExtensionType = ObjectTypeSBR ∨
          c.ExtensionType = ObjectTypePS := Or.inr hx
      by_cases hd : c.DependsOnCoreCoder = true
      · have h0 : (w ++ rest).drop 0 = natBits 5 c.ExtensionType ++
            (rateBits c.SampleRate ++ (natBits 4 code ++
            (rateBits c.ExtensionSampleRate ++ (natBits 5 c.type ++
            (c.FrameLengthFlag :: c.DependsOnCoreCoder ::
            (natBits 14 c.CoreCoderDelay ++ (false :: rest))))))) := by
          rw [← hw]; simp [hx, hd, List.append_assoc]
        have hwl : w.length = 5 + ((rateBits c.SampleRate).length + (4 +
            ((rateBits c.ExtensionSampleRate).length + (5 + (1 + (1 + (14 + 1))))))) := by
          rw [← hw]; simp [hx, hd, natBits_length]
        have s1 := ReadBits_step_of_lt (by decide) hxlt h0
        have s2 := readRateField_step DecodeError.invalidSampleRateIndex s1.2
        have s3 := ReadBits_step_of_lt (n := 4) (by decide) (by omega) s2.2
        have s4 := readRateField_step DecodeError.invalidExtSampleRateIndex s3.2
        have s5 := ReadBits_step_of_lt (n := 5) (by decide) htlt s4.2
        have s6 := ReadFlag_step s5.2
        have s7 := ReadFlag_step s6.2
        have s8 := ReadBits_step (n := 14) (by decide) s7.2
        have s9 := ReadFlag_step s8.2
        rw [AudioSpecificConfig.UnmarshalFromPos, s1.1]
        dsimp only [exc_ok_bind, exc_error_bind, exc_pure, exc_throw]
        rw [if_neg (not_not_intro hguard)]
        rw [s2.1]
        dsimp only [exc_ok_bind, exc_error_bind, exc_pure, exc_throw]
        rw [s3.1]
        dsimp only [exc_ok_bind, exc_error_bind, exc_pure, exc_throw]
        rw [hcodeInv]
        dsimp only [exc_ok_bind, exc_error_bind, exc_pure, exc_throw]
        rw [if_pos hx, s4.1]
        dsimp only [exc_ok_bind, exc_error_bind, exc_pure, exc_throw]
        rw [s5.1]
        dsimp only [exc_ok_bind, exc_error_bind, exc_pure, exc_throw]
        rw [if_neg (fun hne => hne ht)]
        rw [s6.1]
        dsimp only [exc_ok_bind, exc_error_bind, exc_pure, exc_throw]
        rw [s7.1]
        dsimp only [exc_ok_bind, exc_error_bind, exc_pure, exc_throw]
        rw [hd, if_pos rfl, s8.1]
        dsimp only [exc_ok_bind, exc_error_bind, exc_pure, exc_throw]
        rw [s9.1]
        dsimp only [exc_ok_bind, exc_error_bind, exc_pure, exc_throw]
        rw [if_neg (fun hf => Bool.noConfusion hf)]
        simp [decodedOf, hx, hd, ht, hwl, exc_pure]
        all_goals omega
      · have hd' : c.DependsOnCoreCoder = false := by
          revert hd; cases c.DependsOnCoreCoder <;> simp
        have h0 : (w ++ rest).drop 0 = natBits 5 c.ExtensionType ++
            (rateBits c.SampleRate ++ (natBits 4 code ++
            (rateBits c.ExtensionSampleRate ++ (natBits 5 c.type ++
            (c.FrameLengthFlag :: c.DependsOnCoreCoder :: (false :: rest)))))) := by
          rw [← hw]; simp [hx, hd', List.append_assoc]
        have hwl : w.length = 5 + ((rateBits c.SampleRate).length + (4 +
            ((rateBits c.ExtensionSampleRate).length + (5 + (1 + (1 + 1)))))) := by
          rw [← hw]; simp [hx, hd', natBits_length]
        have s1 := ReadBits_step_of_lt (by decide) hxlt h0
        have s2 := readRateField_step DecodeError.invalidSampleRateIndex s1.2
        have s3 := ReadBits_step_of_lt (n := 4) (by decide) (by omega) s2.2
        have s4 := readRateField_step DecodeError.invalidExtSampleRateIndex s3.2
        have s5 := ReadBits_step_of_lt (n := 5) (by decide) htlt s4.2
        have s6 := ReadFlag_step s5.2
        have s7 := ReadFlag_step s6.2
        have s9 := ReadFlag_step s7.2
        rw [AudioSpecificConfig.UnmarshalFromPos, s1.1]
        dsimp only [exc_ok_bind, exc_error_bind, exc_pure, exc_throw]
        rw [if_neg (not_not_intro hguard)]
        rw [s2.1]
        dsimp only [exc_ok_bind, exc_error_bind, exc_pure, exc_throw]
        rw [s3.1]
        dsimp only [exc_ok_bind, exc_error_bind, exc_pure, exc_throw]
        rw [hcodeInv]
        dsimp only [exc_ok_bind, exc_error_bind, exc_pure, exc_throw]
        rw [if_pos hx, s4.1]
        dsimp only [exc_ok_bind, exc_error_bind, exc_pure, exc_throw]
        rw [s5.1]
        dsimp only [exc_ok_bind, exc_error_bind, exc_pure, exc_throw]
        rw [if_neg (fun hne => hne ht)]
        rw [s6.1]
        dsimp only [exc_ok_bind, exc_error_bind, exc_pure, exc_throw]
        rw [s7.1]
        dsimp only [exc_ok_bind, exc_error_bind, exc_pure, exc_throw]
        rw [hd', if_neg (fun hf => Bool.noConfusion hf)]
        rw [s9.1]
        dsimp only [exc_ok_bind, exc_error_bind, exc_pure, exc_throw]
        rw [if_neg (fun hf => Bool.noConfusion hf)]
        simp [decodedOf, hx, hd', ht, hwl, exc_pure]
        all_goals omega
    · have hnx : ¬(c.type = ObjectTypeSBR ∨ c.type = ObjectTypePS) := by
        rw [ht]; decide
      have hguard : c.type = ObjectTypeAACLC ∨ c.type = ObjectTypeSBR ∨
          c.type = ObjectTypePS := Or.inl ht
      by_cases hd : c.DependsOnCoreCoder = true
      · have h0 : (w ++ rest).drop 0 = natBits 5 c.type ++
            (rateBits c.SampleRate ++ (natBits 4 code ++
            (c.FrameLengthFlag :: c.DependsOnCoreCoder ::
            (natBits 14 c.CoreCoderDelay ++ (false :: rest))))) := by
          rw [← hw]; simp [hx, hd, List.append_assoc]
        have hwl : w.length = 5 + ((rateBits c.SampleRate).length + (4 +
            (1 + (1 + (14 + 1))))) := by
          rw [← hw]; simp [hx, hd, natBits_length]
        have s1 := ReadBits_step_of_lt (by decide) htlt h0
        have s2 := readRateField_step DecodeError.invalidSampleRateIndex s1.2
        have s3 := ReadBits_step_of_lt (n := 4) (by decide) (by omega) s2.2
        have s6 := ReadFlag_step s3.2
        have s7 := ReadFlag_step s6.2
        have s8 := ReadBits_step (n := 14) (by decide) s7.2
        have s9 := ReadFlag_step s8.2
        rw [AudioSpecificConfig.UnmarshalFromPos, s1.1]
        dsimp only [exc_ok_bind, exc_error_bind, exc_pure, exc_throw]
        rw [if_neg (not_not_intro hguard)]
        rw [s2.1]
        dsimp only [exc_ok_bind, exc_error_bind, exc_pure, exc_throw]
        rw [s3.1]
        dsimp only [exc_ok_bind, exc_error_bind, exc_pure, exc_throw]
        rw [hcodeInv]
        dsimp only [exc_ok_bind, exc_error_bind, exc_pure, exc_throw]
        rw [if_neg hnx]
        rw [s6.1]
        dsimp only [exc_ok_bind, exc_error_bind, exc_pure, exc_throw]
        rw [s7.1]
        dsimp only [exc_ok_bind, exc_error_bind, exc_pure, exc_throw]
        rw [hd, if_pos rfl, s8.1]
        dsimp only [exc_ok_bind, exc_error_bind, exc_pure, exc_throw]
        rw [s9.1]
        dsimp only [exc_ok_bind, exc_error_bind, exc_pure, exc_throw]
        rw [if_neg (fun hf => Bool.noConfusion hf)]
        simp [decodedOf, hx, hd, ht, hwl, exc_pure]
        all_goals omega
      · have hd' : c.DependsOnCoreCoder = false := by
          revert hd; cases c.DependsOnCoreCoder <;> simp
        have h0 : (w ++ rest).drop 0 = natBits 5 c.type ++
            (rateBits c.SampleRate ++ (natBits 4 code ++
            (c.FrameLengthFlag :: c.DependsOnCoreCoder :: (false :: rest)))) := by
          rw [← hw]; simp [hx, hd', List.append_assoc]
        have hwl : w.length = 5 + ((rateBits c.SampleRate).length + (4 +
            (1 + (1 + 1)))) := by
          rw [← hw]; simp [hx, hd', natBits_length]
        have s1 := ReadBits_step_of_lt (by decide) htlt h0
        have s2 := readRateField_step DecodeError.invalidSampleRateIndex s1.2
        have s3 := ReadBits_step_of_lt (n := 4) (by decide) (by omega) s2.2
        have s6 := ReadFlag_step s3.2
        have s7 := ReadFlag_step s6.2
        have s9 := ReadFlag_step s7.2
        rw [AudioSpecificConfig.UnmarshalFromPos, s1.1]
        dsimp only [exc_ok_bind, exc_error_bind, exc_pure, exc_throw]
        rw [if_neg (not_not_intro hguard)]
        rw [s2.1]
        dsimp only [exc_ok_bind, exc_error_bind, exc_pure, exc_throw]
        rw [s3.1]
        dsimp only [exc_ok_bind, exc_error_bind, exc_pure, exc_throw]
        rw [hcodeInv]
        dsimp only [exc_ok_bind, exc_error_bind, exc_pure, exc_throw]
        rw [if_neg hnx]
        rw [s6.1]
        dsimp only [exc_ok_bind, exc_error_bind, exc_pure, exc_throw]
        rw [s7.1]
        dsimp only [exc_ok_bind, exc_error_bind, exc_pure, exc_throw]
        rw [hd', if_neg (fun hf => Bool.noConfusion hf)]
        rw [s9.1]
        dsimp only [exc_ok_bind, exc_error_bind, exc_pure, exc_throw]
        rw [if_neg (fun hf => Bool.noConfusion hf)]
        simp [decodedOf, hx, hd', ht, hwl, exc_pure]
        all_goals omega

/-- Characterization of decode's accepted domain: exactly the records
`Unmarshal` can produce into a fresh (zero) receiver.  The decoder forces
`type` to the base profile, zeroes nothing itself — so the extension
fields and the delay keep the receiver's zero when their blocks are
absent — and bounds each numeric field by its bit width. -/
def inDecodeDomain (c : AudioSpecificConfig) : Prop :=
  c.type = ObjectTypeAACLC ∧
  c.SampleRate < 2 ^ 24 ∧
  ((1 ≤ c.ChannelCount ∧ c.ChannelCount ≤ 6) ∨ c.ChannelCount = 8) ∧
  (((c.ExtensionType = ObjectTypeSBR ∨ c.ExtensionType = ObjectTypePS) ∧
      c.ExtensionSampleRate < 2 ^ 24) ∨
    (c.ExtensionType = 0 ∧ c.ExtensionSampleRate = 0)) ∧
  (if c.DependsOnCoreCoder then c.CoreCoderDelay < 2 ^ 14
   else c.CoreCoderDelay = 0)

instance (c : AudioSpecificConfig) : Decidable (inDecodeDomain c) := by
  unfold inDecodeDomain; infer_instance

theorem channelConfigOf_isSome {cc : Nat}
    (h : (1 ≤ cc ∧ cc ≤ 6) ∨ cc = 8) :
    ∃ code, channelConfigOf cc = some code := by
  unfold channelConfigOf
  rcases h with h | h
  · exact ⟨cc, if_pos h⟩
  · subst h; exact ⟨7, by decide⟩

theorem marshalSizeBits_le (c : AudioSpecificConfig) :
    c.marshalSizeBits ≤ 8 * c.marshalSize := by
  rw [AudioSpecificConfig.marshalSize]; split_ifs <;> omega

/-- Encoding succeeds exactly on representable channel counts, and the
whole produced buffer then decodes (into any receiver) to `decodedOf`,
consuming exactly `marshalSizeBits` bits of an `8 * marshalSize`-bit
buffer. -/
theorem roundtrip_general (c0 c : AudioSpecificConfig)
    (ht : c.type = ObjectTypeAACLC)
    (hch : (1 ≤ c.ChannelCount ∧ c.ChannelCount ≤ 6) ∨ c.ChannelCount = 8) :
    ∃ out, c.Marshal = some out ∧ out.length = 8 * c.marshalSize ∧
      c0.UnmarshalFromPos out 0 = .ok (decodedOf c0 c, c.marshalSizeBits) ∧
      c0.Unmarshal out = .ok (decodedOf c0 c) := by
  obtain ⟨code, hcode⟩ := channelConfigOf_isSome hch
  have hwex : ∃ w, c.marshalTo = some w := by
    rw [AudioSpecificConfig.marshalTo, hcode]; exact ⟨_, rfl⟩
  obtain ⟨w, hw⟩ := hwex
  have hlen := marshalTo_length hw
  have hle := marshalSizeBits_le c
  have hM : c.Marshal =
      some (w ++ List.replicate (8 * c.marshalSize - w.length) false) := by
    rw [AudioSpecificConfig.Marshal, hw]; rfl
  rw [hlen] at hM
  have hU := unmarshal_of_marshalTo c0 c
    (List.replicate (8 * c.marshalSize - c.marshalSizeBits) false) ht hw
  rw [hlen] at hU
  refine ⟨_, hM, ?_, hU, ?_⟩
  · simp [List.length_append, hlen]; omega
  · rw [AudioSpecificConfig.Unmarshal, hU]; rfl

/-- On the decode domain, decoding into a fresh receiver undoes the
truncations and receiver fills of `decodedOf`. -/
theorem decodedOf_zero_eq (c : AudioSpecificConfig) (h : inDecodeDomain c) :
    decodedOf AudioSpecificConfig.zero c = c := by
  obtain ⟨t, sr, cc, et, esr, flf, doc, delay⟩ := c
  obtain ⟨ht, hsr, hch, hext, hdel⟩ := h
  subst ht
  have htr : truncRate sr = sr := by
    rw [truncRate]
    rcases hr : reverseSampleRates sr with _ | i
    · exact Nat.mod_eq_of_lt hsr
    · rfl
  rcases hext with ⟨hx, hesr⟩ | ⟨hx0, hesr0⟩
  · have htr2 : truncRate esr = esr := by
      rw [truncRate]
      rcases hr : reverseSampleRates esr with _ | i
      · exact Nat.mod_eq_of_lt hesr
      · rfl
    cases doc
    · simp only [Bool.false_eq_true, if_false] at hdel
      subst hdel
      rcases hx with hx | hx <;> subst hx <;>
        simp [decodedOf, AudioSpecificConfig.zero, htr, htr2,
          ObjectTypeSBR, ObjectTypePS]
    · simp only [if_true] at hdel
      rcases hx with hx | hx <;> subst hx <;>
        simp [decodedOf, AudioSpecificConfig.zero, htr, htr2,
          Nat.mod_eq_of_lt hdel, ObjectTypeSBR, ObjectTypePS] <;> omega
  · subst hx0
    subst hesr0
    cases doc
    · simp only [Bool.false_eq_true, if_false] at hdel
      subst hdel
      simp [decodedOf, AudioSpecificConfig.zero, htr,
        ObjectTypeSBR, ObjectTypePS]
    · simp only [if_true] at hdel
      simp [decodedOf, AudioSpecificConfig.zero, htr,
        Nat.mod_eq_of_lt hdel, ObjectTypeSBR, ObjectTypePS]
      omega

/-- C1, counterexample to the claim as stated: the record with
`CoreCoderDelay = 7` but `DependsOnCoreCoder = false` lies in the claimed
domain (base type, consistent zero extension fields, channel count 2,
table rate, no delay bound applies when the flag is unset), yet encoding
then decoding returns the delay as 0, not 7. -/
theorem c1_roundtrip_counterexample :
    ∃ out,
      (⟨2, 44100, 2, 0, 0, false, false, 7⟩ : AudioSpecificConfig).Marshal =
        some out ∧
      AudioSpecificConfig.zero.Unmarshal out =
        .ok ⟨2, 44100, 2, 0, 0, false, false, 0⟩ ∧
      (⟨2, 44100, 2, 0, 0, false, false, 0⟩ : AudioSpecificConfig) ≠
        ⟨2, 44100, 2, 0, 0, false, false, 7⟩ := by
  refine ⟨[false, false, false, true, false, false, true, false,
           false, false, false, true, false, false, false, false], ?_, ?_, ?_⟩
  · decide
  · decide
  · decide

/-- C1 (amended): for every record in decode's accepted domain — which
additionally pins the fields of absent conditional blocks to zero
(`CoreCoderDelay = 0` when the flag is unset, zero extension fields when
no extension is present) and pins `type` to the base profile — `Marshal`
succeeds and `Unmarshal` of the produced bytes into a fresh receiver
returns the record unchanged. -/
theorem c1_roundtrip_amended (c : AudioSpecificConfig) (h : inDecodeDomain c) :
    ∃ out, c.Marshal = some out ∧
      AudioSpecificConfig.zero.Unmarshal out = .ok c := by
  obtain ⟨out, hM, _, _, hU⟩ :=
    roundtrip_general AudioSpecificConfig.zero c h.1 h.2.2.1
  exact ⟨out, hM, by rw [hU, decodedOf_zero_eq c h]⟩

/-- C1 witness: the amended round trip at a concrete in-domain record. -/
theorem c1_roundtrip_amended_witness :
    inDecodeDomain ⟨2, 44100, 2, 0, 0, false, false, 0⟩ ∧
    ∃ out,
      (⟨2, 44100, 2, 0, 0, false, false, 0⟩ : AudioSpecificConfig).Marshal =
        some out ∧
      AudioSpecificConfig.zero.Unmarshal out =
        .ok ⟨2, 44100, 2, 0, 0, false, false, 0⟩ :=
  ⟨by decide, c1_roundtrip_amended _ (by decide)⟩

theorem truncRate_eq_of_lt {r : Nat} (h : r < 2 ^ 24) : truncRate r = r := by
  rw [truncRate]
  rcases reverseSampleRates r with _ | i
  · exact Nat.mod_eq_of_lt h
  · rfl

theorem exc_bind_ok_inv {ε α β : Type} {m : Except ε α} {f : α → Except ε β}
    {b : β} (h : (m >>= f) = .ok b) : ∃ a, m = .ok a ∧ f a = .ok b := by
  cases m with
  | error e => rw [exc_error_bind] at h; exact Except.noConfusion h
  | ok a => exact ⟨a, rfl, h⟩

/-- A successful decode into a fresh receiver reports the base profile as
`type` whenever it reports an extension: the extension block overwrites
`type` with the second type field, which must equal the base profile, and
without an extension block the receiver's zero extension type survives. -/
theorem unmarshal_ext_type_base (buf : List Bool) (c' : AudioSpecificConfig)
    (p' : Nat)
    (h : AudioSpecificConfig.zero.UnmarshalFromPos buf 0 = .ok (c', p'))
    (hx : c'.ExtensionType = ObjectTypeSBR ∨ c'.ExtensionType = ObjectTypePS) :
    c'.type = ObjectTypeAACLC := by
  rw [AudioSpecificConfig.UnmarshalFromPos] at h
  obtain ⟨tp, h1, h⟩ := exc_bind_ok_inv h
  try dsimp only at h
  split at h
  · rw [exc_error_bind] at h
    exact Except.noConfusion h
  · try simp only [exc_pure, exc_ok_bind] at h
    obtain ⟨d1, _, h⟩ := exc_bind_ok_inv h
    try dsimp only at h
    obtain ⟨d2, _, h⟩ := exc_bind_ok_inv h
    try dsimp only at h
    obtain ⟨cc, _, h⟩ := exc_bind_ok_inv h
    try dsimp only at h
    split at h
    · obtain ⟨d3, _, h⟩ := exc_bind_ok_inv h
      try dsimp only at h
      obtain ⟨d4, _, h⟩ := exc_bind_ok_inv h
      try dsimp only at h
      split at h
      next hg2 =>
        rw [exc_error_bind] at h
        exact Except.noConfusion h
      next hg2 =>
        try simp only [exc_pure, exc_ok_bind] at h
        obtain ⟨d5, _, h⟩ := exc_bind_ok_inv h
        try dsimp only at h
        obtain ⟨d6, _, h⟩ := exc_bind_ok_inv h
        try dsimp only at h
        split at h
        · obtain ⟨d7, _, h⟩ := exc_bind_ok_inv h
          try dsimp only at h
          try simp only [exc_pure, exc_ok_bind] at h
          obtain ⟨d8, _, h⟩ := exc_bind_ok_inv h
          try dsimp only at h
          split at h
          · rw [exc_error_bind] at h
            exact Except.noConfusion h
          · simp only [exc_pure, exc_ok_bind, Except.ok.injEq,
              Prod.mk.injEq] at h
            obtain ⟨hc, _⟩ := h
            subst hc
            exact not_not.mp hg2
        · try simp only [exc_pure, exc_ok_bind] at h
          obtain ⟨d8, _, h⟩ := exc_bind_ok_inv h
          try dsimp only at h
          split at h
          · rw [exc_error_bind] at h
            exact Except.noConfusion h
          · simp only [exc_pure, exc_ok_bind, Except.ok.injEq,
              Prod.mk.injEq] at h
            obtain ⟨hc, _⟩ := h
            subst hc
            exact not_not.mp hg2
    · try simp only [exc_pure, exc_ok_bind] at h
      obtain ⟨d5, _, h⟩ := exc_bind_ok_inv h
      try dsimp only at h
      obtain ⟨d6, _, h⟩ := exc_bind_ok_inv h
      try dsimp only at h
      split at h
      · obtain ⟨d7, _, h⟩ := exc_bind_ok_inv h
        try dsimp only at h
        try simp only [exc_pure, exc_ok_bind] at h
        obtain ⟨d8, _, h⟩ := exc_bind_ok_inv h
        try dsimp only at h
        split at h
        · rw [exc_error_bind] at h
          exact Except.noConfusion h
        · simp only [exc_pure, exc_ok_bind, Except.ok.injEq,
            Prod.mk.injEq] at h
          obtain ⟨hc, _⟩ := h
          subst hc
          simp [AudioSpecificConfig.zero, ObjectTypeSBR, ObjectTypePS] at hx
      · try simp only [exc_pure, exc_ok_bind] at h
        obtain ⟨d8, _, h⟩ := exc_bind_ok_inv h
        try dsimp only at h
        split at h
        · rw [exc_error_bind] at h
          exact Except.noConfusion h
        · simp only [exc_pure, exc_ok_bind, Except.ok.injEq,
            Prod.mk.injEq] at h
          obtain ⟨hc, _⟩ := h
          subst hc
          simp [AudioSpecificConfig.zero, ObjectTypeSBR, ObjectTypePS] at hx

/-- Inside an extension block, a second type field that is not the base
profile makes decoding fail with the unsupported-object-type error, for
any trailing bits. -/
theorem unmarshal_second_type_mismatch (t2 : Nat) (rest : List Bool)
    (hlt : t2 < 32) (hne : t2 ≠ ObjectTypeAACLC) :
    AudioSpecificConfig.zero.UnmarshalFromPos
      (natBits 5 ObjectTypeSBR ++ (rateBits 24000 ++ (natBits 4 2 ++
        (rateBits 48000 ++ (natBits 5 t2 ++ rest))))) 0 =
      .error (DecodeError.unsupportedObjectType t2) := by
  set buf := natBits 5 ObjectTypeSBR ++ (rateBits 24000 ++ (natBits 4 2 ++
    (rateBits 48000 ++ (natBits 5 t2 ++ rest)))) with hbuf
  have h0 : buf.drop 0 = natBits 5 ObjectTypeSBR ++ (rateBits 24000 ++
      (natBits 4 2 ++ (rateBits 48000 ++ (natBits 5 t2 ++ rest)))) := by
    rw [hbuf]; rfl
  have s1 := ReadBits_step_of_lt (n := 5) (by decide) (by decide) h0
  have s2 := readRateField_step DecodeError.invalidSampleRateIndex s1.2
  have s3 := ReadBits_step_of_lt (n := 4) (v := 2) (by decide) (by decide) s2.2
  have s4 := readRateField_step DecodeError.invalidExtSampleRateIndex s3.2
  have s5 := ReadBits_step_of_lt (n := 5) (by decide) hlt s4.2
  rw [AudioSpecificConfig.UnmarshalFromPos, s1.1]
  dsimp only [exc_ok_bind, exc_error_bind, exc_pure, exc_throw]
  rw [if_neg (not_not_intro (Or.inr (Or.inl rfl)))]
  rw [s2.1]
  dsimp only [exc_ok_bind, exc_error_bind, exc_pure, exc_throw]
  rw [s3.1]
  dsimp only [exc_ok_bind, exc_error_bind, exc_pure, exc_throw]
  rw [show channelCountOf 2 = Except.ok 2 from by decide]
  dsimp only [exc_ok_bind, exc_error_bind, exc_pure, exc_throw]
  rw [if_pos (Or.inl rfl), s4.1]
  dsimp only [exc_ok_bind, exc_error_bind, exc_pure, exc_throw]
  rw [s5.1]
  dsimp only [exc_ok_bind, exc_error_bind, exc_pure, exc_throw]
  rw [if_pos hne]

/-- C2: during decode a leading SBR or PS type is recorded as the
extension type, the extension rate reuses the core rate algorithm, and
the second 5-bit type must equal the base profile or decoding fails
(conjunct 2, stated at an escape-free extension header with an arbitrary
mismatching second type); consequently every successful decode with an
extension present reports the base profile as `type` (conjunct 1), and
encoding then decoding such a record preserves `type`, `ExtensionType`
and both sample rates independently (conjunct 3, core 24000 together with
extension 48000 in the witness). -/
theorem c2_extension_decode :
    (∀ (buf : List Bool) (c' : AudioSpecificConfig) (p' : Nat),
      AudioSpecificConfig.zero.UnmarshalFromPos buf 0 = .ok (c', p') →
      (c'.ExtensionType = ObjectTypeSBR ∨ c'.ExtensionType = ObjectTypePS) →
      c'.type = ObjectTypeAACLC) ∧
    (∀ (t2 : Nat) (rest : List Bool), t2 < 32 → t2 ≠ ObjectTypeAACLC →
      AudioSpecificConfig.zero.UnmarshalFromPos
        (natBits 5 ObjectTypeSBR ++ (rateBits 24000 ++ (natBits 4 2 ++
          (rateBits 48000 ++ (natBits 5 t2 ++ rest))))) 0 =
        .error (DecodeError.unsupportedObjectType t2)) ∧
    (∀ c : AudioSpecificConfig,
      c.type = ObjectTypeAACLC →
      (c.ExtensionType = ObjectTypeSBR ∨ c.ExtensionType = ObjectTypePS) →
      ((1 ≤ c.ChannelCount ∧ c.ChannelCount ≤ 6) ∨ c.ChannelCount = 8) →
      c.SampleRate < 2 ^ 24 → c.ExtensionSampleRate < 2 ^ 24 →
      ∃ out c', c.Marshal = some out ∧
        AudioSpecificConfig.zero.Unmarshal out = .ok c' ∧
        c'.type = c.type ∧ c'.ExtensionType = c.ExtensionType ∧
        c'.SampleRate = c.SampleRate ∧
        c'.ExtensionSampleRate = c.ExtensionSampleRate) := by
  refine ⟨unmarshal_ext_type_base, unmarshal_second_type_mismatch, ?_⟩
  intro c ht hx hch hsr hesr
  obtain ⟨out, hM, _, _, hU⟩ :=
    roundtrip_general AudioSpecificConfig.zero c ht hch
  refine ⟨out, decodedOf AudioSpecificConfig.zero c, hM, hU, rfl, ?_, ?_, ?_⟩
  · simp [decodedOf, hx]
  · simp [decodedOf, truncRate_eq_of_lt hsr]
  · simp [decodedOf, hx, truncRate_eq_of_lt hesr]

/-- C2 witness: the round-trip conjunct at the concrete SBR record with
core rate 24000 and extension rate 48000. -/
theorem c2_extension_decode_witness :
    ∃ out c',
      (⟨2, 24000, 2, 5, 48000, false, false, 0⟩ : AudioSpecificConfig).Marshal =
        some out ∧
      AudioSpecificConfig.zero.Unmarshal out = .ok c' ∧
      c'.type = 2 ∧ c'.ExtensionType = 5 ∧ c'.SampleRate = 24000 ∧
      c'.ExtensionSampleRate = 48000 :=
  c2_extension_decode.2.2 ⟨2, 24000, 2, 5, 48000, false, false, 0⟩
    (by decide) (by decide) (by decide) (by decide) (by decide)

/-- C3: the 4-bit sample-rate index decoding is a trichotomy — index up
to 12 selects the fixed-table rate, index 15 escapes to the explicit
24-bit read used verbatim, indices 13 and 14 fail with the invalid-index
error (conjunct 1); encoding writes the 4-bit table index exactly on a
reverse-table hit and otherwise index 15 followed by the 24-bit literal
(conjunct 2), which decodes back to the literal value exactly
(conjunct 3). -/
theorem c3_rate_escape :
    (∀ (buf : List Bool) (pos : Nat) (e : Nat → DecodeError) (idx : Nat),
      ReadBits buf pos 4 = .ok (idx, pos + 4) →
      ((idx ≤ 12 →
        readRateField buf pos e = .ok (sampleRateOf idx, pos + 4)) ∧
       (idx = 15 → readRateField buf pos e = ReadBits buf (pos + 4) 24) ∧
       (idx = 13 ∨ idx = 14 →
        readRateField buf pos e = .error (e idx)))) ∧
    (∀ r : Nat,
      (∀ i, reverseSampleRates r = some i →
        rateBits r = natBits 4 i ∧ sampleRateOf i = r) ∧
      (reverseSampleRates r = none →
        rateBits r = natBits 4 15 ++ natBits 24 r)) ∧
    (∀ (r : Nat) (rest : List Bool) (e : Nat → DecodeError),
      reverseSampleRates r = none → r < 2 ^ 24 →
      readRateField (rateBits r ++ rest) 0 e = .ok (r, 28)) := by
  refine ⟨?_, ?_, ?_⟩
  · intro buf pos e idx hidx
    refine ⟨?_, ?_, ?_⟩
    · intro h12
      rw [readRateField, hidx]
      try dsimp only [exc_ok_bind]
      rw [if_pos h12, exc_pure]
    · intro h15
      subst h15
      rw [readRateField, hidx]
      try dsimp only [exc_ok_bind]
      rw [if_neg (by decide), if_pos rfl]
      rcases hr : ReadBits buf (pos + 4) 24 with e' | v
      · rw [exc_error_bind]
      · rw [exc_ok_bind]
        try dsimp only
        try rw [exc_pure]
    · intro h
      rcases h with h | h <;> subst h <;>
        (rw [readRateField, hidx]
         try dsimp only [exc_ok_bind]
         rw [if_neg (by decide), if_neg (by decide)])
  · intro r
    constructor
    · intro i hi
      exact ⟨by rw [rateBits, hi], (reverseSampleRates_some hi).2⟩
    · intro hnone
      rw [rateBits, hnone]
  · intro r rest e hnone hlt
    have h0 : (rateBits r ++ rest).drop 0 = rateBits r ++ rest := by simp
    have hs := readRateField_step e h0
    have hlen : (rateBits r).length = 28 := by
      simp [rateBits, hnone, natBits_length]
    have htr : truncRate r = r := by
      rw [truncRate, hnone]; exact Nat.mod_eq_of_lt hlt
    rw [hlen, htr] at hs
    simpa using hs.1

/-- C3 witness: the spec's example rate 12345 misses the table and
decodes back from its escape encoding exactly. -/
theorem c3_rate_escape_witness :
    reverseSampleRates 12345 = none ∧
    readRateField (rateBits 12345 ++ [])
      0 DecodeError.invalidSampleRateIndex = .ok (12345, 28) :=
  ⟨by decide, c3_rate_escape.2.2 12345 [] _ (by decide) (by decide)⟩

/-- C4: decoding maps channel codes 1 to 6 to themselves (bijectively)
and code 7 to count 8, rejects code 0 as unsupported and codes 8 to 15 as
invalid; encoding inverts this mapping exactly on counts in the set
1..6 and 8, and rejects every other count. -/
theorem c4_channel_mapping :
    (∀ v : Nat, 1 ≤ v → v ≤ 6 → channelCountOf v = .ok v) ∧
    (channelCountOf 0 = .error DecodeError.notYetSupported) ∧
    (channelCountOf 7 = .ok 8) ∧
    (∀ v : Nat, 8 ≤ v → v ≤ 15 →
      channelCountOf v = .error (DecodeError.invalidChannelConfig v)) ∧
    (∀ n : Nat, (1 ≤ n ∧ n ≤ 6) ∨ n = 8 →
      ∃ code, channelConfigOf n = some code ∧ channelCountOf code = .ok n) ∧
    (∀ n : Nat, ¬((1 ≤ n ∧ n ≤ 6) ∨ n = 8) → channelConfigOf n = none) := by
  refine ⟨?_, by decide, by decide, ?_, ?_, ?_⟩
  · intro v h1 h6
    rw [channelCountOf, if_neg (by omega), if_pos ⟨h1, h6⟩]
  · intro v h8 h15
    rw [channelCountOf, if_neg (by omega), if_neg (by omega),
      if_neg (by omega)]
  · intro n hn
    obtain ⟨code, hcode⟩ := channelConfigOf_isSome hn
    exact ⟨code, hcode, (channelConfigOf_some hcode).2⟩
  · intro n hn
    rw [channelConfigOf, if_neg (fun hc => hn (Or.inl hc)),
      if_neg (fun hc => hn (Or.inr hc))]

/-- C4 witness: the mapping at codes 3, 7 and 9 and the inverse at
count 8. -/
theorem c4_channel_mapping_witness :
    channelCountOf 3 = .ok 3 ∧
    channelCountOf 9 = .error (DecodeError.invalidChannelConfig 9) ∧
    ∃ code, channelConfigOf 8 = some code ∧ channelCountOf code = .ok 8 :=
  ⟨c4_channel_mapping.1 3 (by decide) (by decide),
   c4_channel_mapping.2.2.2.1 9 (by decide) (by decide),
   c4_channel_mapping.2.2.2.2.1 8 (by decide)⟩

/-- C5, counterexample to the claim as stated: `Marshal` accepts the
record with the unrecognized object type 0 (it validates only the channel
count), but decoding its output fails at the type guard, so re-decoding
does not consume the computed number of bits. -/
theorem c5_minimality_counterexample :
    ∃ out,
      (⟨0, 44100, 2, 0, 0, false, false, 0⟩ : AudioSpecificConfig).Marshal =
        some out ∧
      AudioSpecificConfig.zero.UnmarshalFromPos out 0 =
        .error (DecodeError.unsupportedObjectType 0) := by
  refine ⟨[false, false, false, false, false, false, true, false, false,
           false, false, true, false, false, false, false], ?_, ?_⟩
  · decide
  · decide

/-- C5 (amended): for every record `Marshal` accepts, the produced buffer
is exactly `marshalSize` bytes (`8 * marshalSize` bits), every bit past
the computed `marshalSizeBits` is zero padding, and — provided the record
is additionally decodable (its `type` is the base profile) — decoding
consumes exactly `marshalSizeBits` bits. -/
theorem c5_minimality_amended (c : AudioSpecificConfig) (out : List Bool)
    (h : c.Marshal = some out) :
    out.length = 8 * c.marshalSize ∧
    out.drop c.marshalSizeBits =
      List.replicate (8 * c.marshalSize - c.marshalSizeBits) false ∧
    (c.type = ObjectTypeAACLC → ∀ c0 : AudioSpecificConfig,
      c0.UnmarshalFromPos out 0 = .ok (decodedOf c0 c, c.marshalSizeBits)) := by
  rw [AudioSpecificConfig.Marshal] at h
  rcases hw : c.marshalTo with _ | w <;> rw [hw] at h
  · exact Option.noConfusion h
  · simp only [Option.map_some', Option.some.injEq] at h
    subst h
    have hlen := marshalTo_length hw
    have hle := marshalSizeBits_le c
    refine ⟨?_, ?_, ?_⟩
    · simp [List.length_append, hlen]
      omega
    · rw [← hlen, List.drop_left]
    · intro ht c0
      rw [← hlen]
      exact unmarshal_of_marshalTo c0 c
        (List.replicate (8 * c.marshalSize - w.length) false) ht hw

/-- C5 witness: the amended statement at a concrete accepted record. -/
theorem c5_minimality_amended_witness :
    (⟨2, 48000, 1, 0, 0, true, false, 0⟩ : AudioSpecificConfig).Marshal =
      some [false, false, false, true, false, false, false, true, true,
            false, false, false, true, true, false, false] ∧
    ([false, false, false, true, false, false, false, true, true,
      false, false, false, true, true, false, false] : List Bool).length =
      8 * (⟨2, 48000, 1, 0, 0, true, false, 0⟩ :
        AudioSpecificConfig).marshalSize ∧
    ([false, false, false, true, false, false, false, true, true,
      false, false, false, true, true, false, false] : List Bool).drop
        (⟨2, 48000, 1, 0, 0, true, false, 0⟩ :
          AudioSpecificConfig).marshalSizeBits =
      List.replicate (8 * (⟨2, 48000, 1, 0, 0, true, false, 0⟩ :
          AudioSpecificConfig).marshalSize -
        (⟨2, 48000, 1, 0, 0, true, false, 0⟩ :
          AudioSpecificConfig).marshalSizeBits) false := by
  refine ⟨by decide, ?_⟩
  have := c5_minimality_amended ⟨2, 48000, 1, 0, 0, true, false, 0⟩
    [false, false, false, true, false, false, false, true, true,
     false, false, false, true, true, false, false] (by decide)
  exact ⟨this.1, this.2.1⟩

/-- C6, counterexample to the claim as stated: the claimed formula omits
the trailing extension-flag bit.  For the plain base-profile record the
size pass computes 16 bits — and the write pass emits 16 bits — while the
claimed sum 5 + 4 + 4 + 1 + 1 is 15. -/
theorem c6_size_formula_counterexample :
    (⟨2, 44100, 2, 0, 0, false, false, 0⟩ :
      AudioSpecificConfig).marshalSizeBits = 16 ∧
    (5 + 4 + 4 + 1 + 1 : Nat) = 15 ∧
    ∃ w, (⟨2, 44100, 2, 0, 0, false, false, 0⟩ :
        AudioSpecificConfig).marshalTo = some w ∧ w.length = 16 := by
  refine ⟨by decide, by decide,
    [false, false, false, true, false, false, true, false, false,
     false, false, true, false, false, false, false], by decide, by decide⟩

/-- C6 (amended): the size pass computes the claimed sum plus one bit for
the always-written trailing extension flag (and the claimed conditional
extras), and this equals the number of bits the write pass actually
emits. -/
theorem c6_size_formula_amended (c : AudioSpecificConfig) :
    c.marshalSizeBits =
      (5 + 4 + 4 + 1 + 1) + 1
      + (if (reverseSampleRates c.SampleRate).isSome then 0 else 24)
      + (if c.ExtensionType = ObjectTypeSBR ∨ c.ExtensionType = ObjectTypePS
         then (if (reverseSampleRates c.ExtensionSampleRate).isSome
               then 4 else 28) + 5
         else 0)
      + (if c.DependsOnCoreCoder then 14 else 0) ∧
    ∀ w, c.marshalTo = some w → w.length = c.marshalSizeBits := by
  constructor
  · rw [AudioSpecificConfig.marshalSizeBits]
    split_ifs <;> omega
  · exact fun w hw => marshalTo_length hw

/-- C6 witness: the emitted length equals the size pass at a concrete
record with an escape-coded rate and a core-coder delay. -/
theorem c6_size_formula_amended_witness :
    ∃ w, (⟨2, 12345, 2, 0, 0, false, true, 77⟩ :
        AudioSpecificConfig).marshalTo = some w ∧
      w.length = (⟨2, 12345, 2, 0, 0, false, true, 77⟩ :
        AudioSpecificConfig).marshalSizeBits := by
  rcases hw : (⟨2, 12345, 2, 0, 0, false, true, 77⟩ :
      AudioSpecificConfig).marshalTo with _ | w
  · exact absurd hw (by decide)
  · exact ⟨w, rfl, (c6_size_formula_amended _).2 w hw⟩

/-- C7: when `DependsOnCoreCoder` is unset the encoding has no 14-bit
delay field and the stored delay does not affect the encoded bytes at all
(conjunct 1); when set, the 14-bit delay field sits immediately after the
two flag bits (conjunct 2) and every delay value up to 16383 round-trips
exactly through encode then decode of a decodable record (conjunct 3). -/
theorem c7_delay_gating :
    (∀ (c : AudioSpecificConfig) (d : Nat), c.DependsOnCoreCoder = false →
      AudioSpecificConfig.Marshal { c with CoreCoderDelay := d } =
        c.Marshal) ∧
    (∀ (c : AudioSpecificConfig) (w : List Bool),
      c.DependsOnCoreCoder = true → c.marshalTo = some w →
      ∃ pre, w = pre ++ (c.FrameLengthFlag :: true ::
        (natBits 14 c.CoreCoderDelay ++ [false]))) ∧
    (∀ (c : AudioSpecificConfig) (d : Nat), c.DependsOnCoreCoder = true →
      c.type = ObjectTypeAACLC →
      ((1 ≤ c.ChannelCount ∧ c.ChannelCount ≤ 6) ∨ c.ChannelCount = 8) →
      d ≤ 16383 →
      ∃ out c',
        AudioSpecificConfig.Marshal { c with CoreCoderDelay := d } =
          some out ∧
        AudioSpecificConfig.zero.Unmarshal out = .ok c' ∧
        c'.CoreCoderDelay = d) := by
  refine ⟨?_, ?_, ?_⟩
  · intro c d hd
    simp [AudioSpecificConfig.Marshal, AudioSpecificConfig.marshalTo,
      AudioSpecificConfig.marshalSize, AudioSpecificConfig.marshalSizeBits,
      hd]
  · intro c w hd hw
    rw [AudioSpecificConfig.marshalTo] at hw
    rcases hc : channelConfigOf c.ChannelCount with _ | code <;>
      rw [hc] at hw
    · exact Option.noConfusion hw
    · simp only [Option.some.injEq] at hw
      refine ⟨(if c.ExtensionType = ObjectTypeSBR ∨
            c.ExtensionType = ObjectTypePS then
          natBits 5 c.ExtensionType else natBits 5 c.type) ++
          (rateBits c.SampleRate ++ (natBits 4 code ++
          (if c.ExtensionType = ObjectTypeSBR ∨
              c.ExtensionType = ObjectTypePS then
            rateBits c.ExtensionSampleRate ++ natBits 5 c.type
          else []))), ?_⟩
      rw [← hw]
      simp [hd, List.append_assoc]
  · intro c d hd ht hch hdle
    obtain ⟨out, hM, _, _, hU⟩ := roundtrip_general AudioSpecificConfig.zero
      { c with CoreCoderDelay := d } ht hch
    refine ⟨out, _, hM, hU, ?_⟩
    simp [decodedOf, hd, Nat.mod_eq_of_lt (by omega : d < 2 ^ 14)]
    omega

/-- C7 witness: delay 9999 round-trips exactly at a concrete record with
the dependency flag set. -/
theorem c7_delay_gating_witness :
    ∃ out c',
      (⟨2, 44100, 2, 0, 0, false, true, 9999⟩ :
        AudioSpecificConfig).Marshal = some out ∧
      AudioSpecificConfig.zero.Unmarshal out = .ok c' ∧
      c'.CoreCoderDelay = 9999 :=
  c7_delay_gating.2.2 ⟨2, 44100, 2, 0, 0, false, true, 0⟩ 9999
    rfl rfl (by decide) (by decide)

/-- C9: `Marshal` returns an error precisely when the channel count is
outside the representable set 1..6 and 8 (conjunct 1); it performs no
range validation on the rates or the delay, so any decodable record —
rates and delay unbounded — still encodes without error and decodes to
the record with the escape-coded rates reduced modulo `2 ^ 24` and the
delay reduced modulo `2 ^ 14`, as spelled out by `decodedOf`
(conjunct 2). -/
theorem c9_marshal_validation :
    (∀ c : AudioSpecificConfig, (c.Marshal).isSome ↔
      ((1 ≤ c.ChannelCount ∧ c.ChannelCount ≤ 6) ∨ c.ChannelCount = 8)) ∧
    (∀ c : AudioSpecificConfig, c.type = ObjectTypeAACLC →
      ((1 ≤ c.ChannelCount ∧ c.ChannelCount ≤ 6) ∨ c.ChannelCount = 8) →
      ∃ out, c.Marshal = some out ∧
        AudioSpecificConfig.zero.Unmarshal out =
          .ok (decodedOf AudioSpecificConfig.zero c)) := by
  constructor
  · intro c
    constructor
    · intro hs
      by_contra hn
      have hnone : channelConfigOf c.ChannelCount = none := by
        rw [channelConfigOf, if_neg (fun hc => hn (Or.inl hc)),
          if_neg (fun hc => hn (Or.inr hc))]
      rw [AudioSpecificConfig.Marshal, AudioSpecificConfig.marshalTo,
        hnone] at hs
      simp at hs
    · intro hch
      obtain ⟨code, hcode⟩ := channelConfigOf_isSome hch
      rw [AudioSpecificConfig.Marshal, AudioSpecificConfig.marshalTo, hcode]
      simp
  · intro c ht hch
    obtain ⟨out, hM, _, _, hU⟩ :=
      roundtrip_general AudioSpecificConfig.zero c ht hch
    exact ⟨out, hM, hU⟩

/-- C9 witness: a sample rate above `2 ^ 24` and a delay above `2 ^ 14`
are encoded without error and come back reduced modulo the field
widths. -/
theorem c9_marshal_validation_witness :
    decodedOf AudioSpecificConfig.zero
        ⟨2, 16777516, 2, 0, 0, false, true, 20000⟩ =
      ⟨2, 300, 2, 0, 0, false, true, 3616⟩ ∧
    ∃ out,
      (⟨2, 16777516, 2, 0, 0, false, true, 20000⟩ :
        AudioSpecificConfig).Marshal = some out ∧
      AudioSpecificConfig.zero.Unmarshal out =
        .ok (decodedOf AudioSpecificConfig.zero
          ⟨2, 16777516, 2, 0, 0, false, true, 20000⟩) :=
  ⟨by decide,
   c9_marshal_validation.2 ⟨2, 16777516, 2, 0, 0, false, true, 20000⟩
     (by decide) (by decide)⟩

theorem ReadBits_ok_le {buf : List Bool} {pos n v p : Nat}
    (h : ReadBits buf pos n = .ok (v, p)) :
    pos + n ≤ buf.length ∧ p = pos + n := by
  rw [ReadBits] at h
  split at h
  next hle =>
    simp only [Except.ok.injEq, Prod.mk.injEq] at h
    exact ⟨hle, h.2.symm⟩
  next => exact Except.noConfusion h

theorem readRateField_ok_pos {buf : List Bool} {pos v p : Nat}
    {e : Nat → DecodeError} (h : readRateField buf pos e = .ok (v, p)) :
    pos + 4 ≤ buf.length ∧ pos + 4 ≤ p := by
  rw [readRateField] at h
  obtain ⟨⟨idx, p1⟩, h1, h⟩ := exc_bind_ok_inv h
  obtain ⟨hb, hp⟩ := ReadBits_ok_le h1
  subst hp
  try dsimp only at h
  split at h
  · rw [exc_pure] at h
    simp only [Except.ok.injEq, Prod.mk.injEq] at h
    omega
  · split at h
    · obtain ⟨⟨w, p2⟩, h2, h⟩ := exc_bind_ok_inv h
      obtain ⟨hb2, hp2⟩ := ReadBits_ok_le h2
      subst hp2
      try dsimp only at h
      rw [exc_pure] at h
      simp only [Except.ok.injEq, Prod.mk.injEq] at h
      omega
    · exact Except.noConfusion h

theorem ReadBits_error_eq {buf : List Bool} {pos n : Nat} {e : DecodeError}
    (h : ReadBits buf pos n = .error e) : e = .insufficientData := by
  rw [ReadBits] at h
  split at h
  · exact Except.noConfusion h
  · injection h with h'
    exact h'.symm

/-- A read that fits inside the buffer is unchanged by appending bits. -/
theorem ReadBits_append_of_le {buf ext : List Bool} {pos n : Nat}
    (h : pos + n ≤ buf.length) :
    ReadBits (buf ++ ext) pos n = ReadBits buf pos n := by
  have hlen : pos + n ≤ (buf ++ ext).length := by
    rw [List.length_append]; omega
  rw [ReadBits, ReadBits, if_pos h, if_pos hlen]
  have hdrop : (buf ++ ext).drop pos = buf.drop pos ++ ext :=
    List.drop_append_of_le_length (by omega)
  have htake : (buf.drop pos ++ ext).take n = (buf.drop pos).take n :=
    List.take_append_of_le_length (by rw [List.length_drop]; omega)
  rw [hdrop, htake]

theorem ReadBits_ok_append {buf ext : List Bool} {pos n : Nat} {x : Nat × Nat}
    (h : ReadBits buf pos n = .ok x) :
    ReadBits (buf ++ ext) pos n = .ok x := by
  obtain ⟨v, p⟩ := x
  rw [ReadBits_append_of_le (ReadBits_ok_le h).1]
  exact h

theorem ReadFlag_error_eq {buf : List Bool} {pos : Nat} {e : DecodeError}
    (h : ReadFlag buf pos = .error e) : e = .insufficientData := by
  rw [ReadFlag] at h
  rcases hr : ReadBits buf pos 1 with e' | v
  · rw [hr, exc_error_bind] at h
    injection h with h'
    exact h' ▸ ReadBits_error_eq hr
  · rw [hr, exc_ok_bind] at h
    try dsimp only at h
    rw [exc_pure] at h
    exact Except.noConfusion h

theorem ReadFlag_ok_append {buf ext : List Bool} {pos : Nat} {x : Bool × Nat}
    (h : ReadFlag buf pos = .ok x) :
    ReadFlag (buf ++ ext) pos = .ok x := by
  rw [ReadFlag] at h ⊢
  rcases hr : ReadBits buf pos 1 with e' | v
  · rw [hr, exc_error_bind] at h
    exact Except.noConfusion h
  · rw [ReadBits_ok_append hr]
    rw [hr] at h
    exact h

theorem readRateField_ok_append {buf ext : List Bool} {pos : Nat}
    {e : Nat → DecodeError} {x : Nat × Nat}
    (h : readRateField buf pos e = .ok x) :
    readRateField (buf ++ ext) pos e = .ok x := by
  rw [readRateField] at h ⊢
  rcases hr : ReadBits buf pos 4 with e' | v
  · rw [hr, exc_error_bind] at h
    exact Except.noConfusion h
  · rw [ReadBits_ok_append hr]
    rw [hr] at h
    rw [exc_ok_bind] at h ⊢
    try dsimp only at h ⊢
    by_cases h12 : v.1 ≤ 12
    · rw [if_pos h12] at h ⊢
      exact h
    · rw [if_neg h12] at h ⊢
      by_cases h15 : v.1 = 15
      · rw [if_pos h15] at h ⊢
        rcases hr2 : ReadBits buf v.2 24 with e2 | v2
        · rw [hr2, exc_error_bind] at h
          exact Except.noConfusion h
        · rw [ReadBits_ok_append hr2]
          rw [hr2] at h
          exact h
      · rw [if_neg h15] at h ⊢
        exact h

theorem readRateField_error_cases (ext : List Bool) {buf : List Bool}
    {pos : Nat} {e : Nat → DecodeError} {err : DecodeError}
    (h : readRateField buf pos e = .error err) :
    err = .insufficientData ∨
      readRateField (buf ++ ext) pos e = .error err := by
  rw [readRateField] at h
  rcases hr : ReadBits buf pos 4 with e' | v
  · rw [hr, exc_error_bind] at h
    injection h with h'
    exact Or.inl (h' ▸ ReadBits_error_eq hr)
  · rw [hr, exc_ok_bind] at h
    try dsimp only at h
    by_cases h12 : v.1 ≤ 12
    · rw [if_pos h12, exc_pure] at h
      exact Except.noConfusion h
    · by_cases h15 : v.1 = 15
      · rw [if_neg h12, if_pos h15] at h
        rcases hr2 : ReadBits buf v.2 24 with e2 | v2
        · rw [hr2, exc_error_bind] at h
          injection h with h'
          exact Or.inl (h' ▸ ReadBits_error_eq hr2)
        · rw [hr2, exc_ok_bind] at h
          try dsimp only at h
          rw [exc_pure] at h
          exact Except.noConfusion h
      · rw [if_neg h12, if_neg h15] at h
        right
        rw [readRateField, ReadBits_ok_append hr, exc_ok_bind]
        try dsimp only
        rw [if_neg h12, if_neg h15]
        exact h

/-- Decoding reads the buffer strictly left to right, so its outcome is
unchanged by appending bits — unless a field read exhausts the buffer, in
which case the decode returns the bit-reader's insufficient-data error. -/
theorem unmarshalFromPos_append_stable (c0 : AudioSpecificConfig)
    (buf ext : List Bool) :
    c0.UnmarshalFromPos buf 0 = .error DecodeError.insufficientData ∨
    c0.UnmarshalFromPos (buf ++ ext) 0 = c0.UnmarshalFromPos buf 0 := by
  simp only [AudioSpecificConfig.UnmarshalFromPos]
  rcases h1 : ReadBits buf 0 5 with e1 | v1
  · left
    simp only [exc_error_bind]
    rw [ReadBits_error_eq h1]
  · rw [ReadBits_ok_append h1]
    try simp only [exc_ok_bind]
    try dsimp only
    by_cases hg1 : v1.1 = ObjectTypeAACLC ∨ v1.1 = ObjectTypeSBR ∨
        v1.1 = ObjectTypePS
    case neg =>
      right
      rw [if_pos hg1, if_pos hg1]
      simp only [exc_error_bind]
    case pos =>
      rw [if_neg (not_not_intro hg1), if_neg (not_not_intro hg1)]
      try simp only [exc_pure, exc_ok_bind]
      try dsimp only
      rcases h2 : readRateField buf v1.2 DecodeError.invalidSampleRateIndex
          with e2 | v2
      · rcases readRateField_error_cases ext h2 with he | happ
        · left
          simp only [exc_error_bind]
          rw [he]
        · right
          rw [happ]
          simp only [exc_error_bind]
      · rw [readRateField_ok_append h2]
        try simp only [exc_ok_bind]
        try dsimp only
        rcases h3 : ReadBits buf v2.2 4 with e3 | v3
        · left
          simp only [exc_error_bind]
          rw [ReadBits_error_eq h3]
        · rw [ReadBits_ok_append h3]
          try simp only [exc_ok_bind]
          try dsimp only
          rcases h4 : channelCountOf v3.1 with e4 | cc
          · right
            simp only [exc_error_bind]
          · try simp only [exc_ok_bind]
            try dsimp only
            by_cases hx : v1.1 = ObjectTypeSBR ∨ v1.1 = ObjectTypePS
            · rw [if_pos hx, if_pos hx]
              rcases h5 : readRateField buf v3.2
                  DecodeError.invalidExtSampleRateIndex with e5 | v5
              · rcases readRateField_error_cases ext h5 with he | happ
                · left
                  simp only [exc_error_bind]
                  rw [he]
                · right
                  rw [happ]
                  simp only [exc_error_bind]
              · rw [readRateField_ok_append h5]
                try simp only [exc_ok_bind]
                try dsimp only
                rcases h6 : ReadBits buf v5.2 5 with e6 | v6
                · left
                  simp only [exc_error_bind]
                  rw [ReadBits_error_eq h6]
                · rw [ReadBits_ok_append h6]
                  try simp only [exc_ok_bind]
                  try dsimp only
                  by_cases hg2 : v6.1 = ObjectTypeAACLC
                  case neg =>
                    right
                    rw [if_pos hg2, if_pos hg2]
                    simp only [exc_error_bind]
                  case pos =>
                    rw [if_neg (not_not_intro hg2),
                      if_neg (not_not_intro hg2)]
                    try simp only [exc_pure, exc_ok_bind]
                    try dsimp only
                    rcases h7 : ReadFlag buf v6.2 with e7 | v7
                    · left
                      simp only [exc_error_bind]
                      rw [ReadFlag_error_eq h7]
                    · rw [ReadFlag_ok_append h7]
                      try simp only [exc_ok_bind]
                      try dsimp only
                      rcases h8 : ReadFlag buf v7.2 with e8 | v8
                      · left
                        simp only [exc_error_bind]
                        rw [ReadFlag_error_eq h8]
                      · rw [ReadFlag_ok_append h8]
                        try simp only [exc_ok_bind]
                        try dsimp only
                        by_cases hd : v8.1 = true
                        · rw [if_pos hd, if_pos hd]
                          rcases h9 : ReadBits buf v8.2 14 with e9 | v9
                          · left
                            simp only [exc_error_bind]
                            rw [ReadBits_error_eq h9]
                          · rw [ReadBits_ok_append h9]
                            try simp only [exc_pure, exc_ok_bind]
                            try dsimp only
                            rcases h10 : ReadFlag buf v9.2 with e10 | v10
                            · left
                              simp only [exc_error_bind]
                              rw [ReadFlag_error_eq h10]
                            · rw [ReadFlag_ok_append h10]
                              try simp only [exc_pure, exc_ok_bind,
                                exc_error_bind]
                              try dsimp only
                              right
                              trivial
                        · rw [if_neg hd, if_neg hd]
                          try simp only [exc_pure, exc_ok_bind]
                          try dsimp only
                          rcases h10 : ReadFlag buf v8.2 with e10 | v10
                          · left
                            simp only [exc_error_bind]
                            rw [ReadFlag_error_eq h10]
                          · rw [ReadFlag_ok_append h10]
                            try simp only [exc_pure, exc_ok_bind,
                              exc_error_bind]
                            try dsimp only
                            right
                            trivial
            · rw [if_neg hx, if_neg hx]
              try simp only [exc_pure, exc_ok_bind]
              try dsimp only
              rcases h7 : ReadFlag buf v3.2 with e7 | v7
              · left
                simp only [exc_error_bind]
                rw [ReadFlag_error_eq h7]
              · rw [ReadFlag_ok_append h7]
                try simp only [exc_ok_bind]
                try dsimp only
                rcases h8 : ReadFlag buf v7.2 with e8 | v8
                · left
                  simp only [exc_error_bind]
                  rw [ReadFlag_error_eq h8]
                · rw [ReadFlag_ok_append h8]
                  try simp only [exc_ok_bind]
                  try dsimp only
                  by_cases hd : v8.1 = true
                  · rw [if_pos hd, if_pos hd]
                    rcases h9 : ReadBits buf v8.2 14 with e9 | v9
                    · left
                      simp only [exc_error_bind]
                      rw [ReadBits_error_eq h9]
                    · rw [ReadBits_ok_append h9]
                      try simp only [exc_pure, exc_ok_bind]
                      try dsimp only
                      rcases h10 : ReadFlag buf v9.2 with e10 | v10
                      · left
                        simp only [exc_error_bind]
                        rw [ReadFlag_error_eq h10]
                      · rw [ReadFlag_ok_append h10]
                        try simp only [exc_pure, exc_ok_bind,
                          exc_error_bind]
                        try dsimp only
                        right
                        trivial
                  · rw [if_neg hd, if_neg hd]
                    try simp only [exc_pure, exc_ok_bind]
                    try dsimp only
                    rcases h10 : ReadFlag buf v8.2 with e10 | v10
                    · left
                      simp only [exc_error_bind]
                      rw [ReadFlag_error_eq h10]
                    · rw [ReadFlag_ok_append h10]
                      try simp only [exc_pure, exc_ok_bind,
                        exc_error_bind]
                      try dsimp only
                      right
                      trivial

/-- Lift of `unmarshalFromPos_append_stable` to `Unmarshal`: the decode
outcome is either the bit-reader's insufficient-data error, or it is
already determined by the complete fields inside the buffer and is
unchanged by appending arbitrary bits. -/
theorem unmarshal_append_stable (c0 : AudioSpecificConfig)
    (buf ext : List Bool) :
    c0.Unmarshal buf = .error DecodeError.insufficientData ∨
    c0.Unmarshal (buf ++ ext) = c0.Unmarshal buf := by
  rcases unmarshalFromPos_append_stable c0 buf ext with h | h
  · left
    rw [AudioSpecificConfig.Unmarshal, h]
    rfl
  · right
    rw [AudioSpecificConfig.Unmarshal, AudioSpecificConfig.Unmarshal, h]

/-- C8, counterexample to the claim as stated: a one-byte buffer is
shorter than the minimum header, yet when its complete 5-bit type field
is invalid the decoder fails with the unsupported-object-type error, not
with the bit-reader's insufficient-data error. -/
theorem c8_truncation_counterexample :
    AudioSpecificConfig.zero.Unmarshal
        [false, false, false, false, false, false, false, false] =
      .error (DecodeError.unsupportedObjectType 0) ∧
    DecodeError.unsupportedObjectType 0 ≠ DecodeError.insufficientData := by
  exact ⟨by decide, by decide⟩

/-- C8 (amended): every individual field read fails uniformly with the
insufficient-data condition when fewer bits remain than it requires
(conjunct 1); the decoder propagates that error unchanged — its outcome
is either the bit-reader's insufficient-data error, or it is already
fully determined by the complete fields inside the buffer and unchanged
by appending arbitrary bits, so whenever the outcome still depends on
missing bits (a field read exhausted the buffer) exactly the
insufficient-data error is returned (conjunct 2); decoding any buffer
shorter than the 12-bit minimum header always fails, with no partial
recovery and, being a total function, no panic or out-of-bounds access
(conjunct 3); and a buffer too short for even the first field fails with
the insufficient-data error itself (conjunct 4).  A short buffer whose
complete leading fields are malformed fails with that field's error
instead, per the counterexample. -/
theorem c8_truncation_amended (buf : List Bool) :
    (∀ pos n : Nat, buf.length < pos + n →
      ReadBits buf pos n = .error DecodeError.insufficientData) ∧
    (∀ ext : List Bool,
      AudioSpecificConfig.zero.Unmarshal buf =
        .error DecodeError.insufficientData ∨
      AudioSpecificConfig.zero.Unmarshal (buf ++ ext) =
        AudioSpecificConfig.zero.Unmarshal buf) ∧
    (buf.length < 12 →
      ∃ e, AudioSpecificConfig.zero.Unmarshal buf = .error e) ∧
    (buf.length < 5 →
      AudioSpecificConfig.zero.Unmarshal buf =
        .error DecodeError.insufficientData) := by
  refine ⟨?_, unmarshal_append_stable AudioSpecificConfig.zero buf, ?_, ?_⟩
  · intro pos n h
    rw [ReadBits, if_neg (by omega)]
  · intro h12
    rcases hX : AudioSpecificConfig.zero.Unmarshal buf with e | cfin
    · exact ⟨e, rfl⟩
    · exfalso
      rw [AudioSpecificConfig.Unmarshal] at hX
      rcases hY : AudioSpecificConfig.zero.UnmarshalFromPos buf 0 with e | pr
      · rw [hY] at hX
        exact Except.noConfusion hX
      · clear hX
        obtain ⟨c', p'⟩ := pr
        rw [AudioSpecificConfig.UnmarshalFromPos] at hY
        obtain ⟨⟨t, p1⟩, h1, hY⟩ := exc_bind_ok_inv hY
        obtain ⟨hb1, hp1⟩ := ReadBits_ok_le h1
        subst hp1
        try dsimp only at hY
        split at hY
        · exact Except.noConfusion hY
        · try simp only [exc_pure, exc_ok_bind] at hY
          obtain ⟨⟨sr, p2⟩, h2, hY⟩ := exc_bind_ok_inv hY
          obtain ⟨hb2, hp2⟩ := readRateField_ok_pos h2
          try dsimp only at hY
          obtain ⟨⟨cv, p3⟩, h3, hY⟩ := exc_bind_ok_inv hY
          obtain ⟨hb3, _⟩ := ReadBits_ok_le h3
          omega
  · intro h5
    rw [AudioSpecificConfig.Unmarshal, AudioSpecificConfig.UnmarshalFromPos]
    rw [show ReadBits buf 0 5 = .error DecodeError.insufficientData from by
      rw [ReadBits, if_neg (by omega)]]
    rfl

/-- C8 witness: the amended statement's four conjuncts at the empty
buffer (with the one-bit extension for the stability conjunct). -/
theorem c8_truncation_amended_witness :
    ReadBits [] 0 5 = .error DecodeError.insufficientData ∧
    (AudioSpecificConfig.zero.Unmarshal [] =
        .error DecodeError.insufficientData ∨
      AudioSpecificConfig.zero.Unmarshal (([] : List Bool) ++ [true]) =
        AudioSpecificConfig.zero.Unmarshal []) ∧
    (∃ e, AudioSpecificConfig.zero.Unmarshal [] = .error e) ∧
    AudioSpecificConfig.zero.Unmarshal [] =
      .error DecodeError.insufficientData :=
  ⟨(c8_truncation_amended []).1 0 5 (by decide),
   (c8_truncation_amended []).2.1 [true],
   (c8_truncation_amended []).2.2.1 (by decide),
   (c8_truncation_amended []).2.2.2 (by decide)⟩

/-- The peripheral AV1 OBU header record (obu_header.go): `Type` is a
5-bit code, `HasSize` signals a later size field.  Field `Type` is
renamed `type` as in the main record. -/
structure OBUHeader where
  type : Nat
  HasSize : Bool
deriving DecidableEq, Repr

/-- Decode of the single-byte OBU header (OBUHeader.Unmarshal): rejects
an empty buffer, a set forbidden bit (bit 7) and a set extension flag
(bit 2); stores the top five bits (bits 7 to 3, the forbidden bit being
zero) as the type code and bit 1 as the has-size indicator, never reading
past the first byte. -/
def OBUHeader.Unmarshal (buf : List Nat) : Except String OBUHeader :=
  match buf with
  | [] => .error "not enough bytes"
  | b :: _ =>
    if b >>> 7 ≠ 0 then .error "forbidden bit is set"
    else if (b >>> 2) &&& 1 ≠ 0 then
      .error "extension flag is not supported yet"
    else .ok { type := b >>> 3, HasSize := decide ((b >>> 1) &&& 1 ≠ 0) }

/-- C10, counterexample to the claim as stated: for the byte 0x12 the
decoder succeeds and stores type code 2 (the top five bits, `0x12 >>> 3`),
while the five bits after the forbidden bit are `(0x12 >>> 2) &&& 31 = 4`
— the claimed field placement is off by one bit. -/
theorem c10_obu_counterexample :
    OBUHeader.Unmarshal [18] = .ok ⟨2, true⟩ ∧
    (18 >>> 2) &&& 31 = 4 ∧ (2 : Nat) ≠ 4 :=
  ⟨by decide, by decide, by decide⟩

/-- C10 (amended): the empty buffer fails; for a non-empty buffer
decoding fails when the forbidden bit (bit 7) is set, fails when the
extension-marker bit (bit 2) is set, and otherwise succeeds storing the
top five bits of the byte (equivalently, the forbidden bit being zero,
the four bits after it) as the type code and bit 1 as the has-size
indicator; no byte beyond the first is read. -/
theorem c10_obu_amended (b : Nat) (rest : List Nat) :
    OBUHeader.Unmarshal ([] : List Nat) = .error "not enough bytes" ∧
    (b >>> 7 ≠ 0 →
      OBUHeader.Unmarshal (b :: rest) = .error "forbidden bit is set") ∧
    (b >>> 7 = 0 → (b >>> 2) &&& 1 ≠ 0 →
      OBUHeader.Unmarshal (b :: rest) =
        .error "extension flag is not supported yet") ∧
    (b >>> 7 = 0 → (b >>> 2) &&& 1 = 0 →
      OBUHeader.Unmarshal (b :: rest) =
        .ok ⟨b >>> 3, decide ((b >>> 1) &&& 1 ≠ 0)⟩) ∧
    OBUHeader.Unmarshal (b :: rest) = OBUHeader.Unmarshal [b] := by
  refine ⟨rfl, ?_, ?_, ?_, rfl⟩
  · intro hf
    rw [OBUHeader.Unmarshal, if_pos hf]
  · intro hf he
    rw [OBUHeader.Unmarshal, if_neg (not_not_intro hf), if_pos he]
  · intro hf he
    rw [OBUHeader.Unmarshal, if_neg (not_not_intro hf),
      if_neg (not_not_intro he)]

/-- C10 witness: the amended characterization at the concrete byte
0x10. -/
theorem c10_obu_amended_witness :
    OBUHeader.Unmarshal [16] = .ok ⟨2, false⟩ :=
  (c10_obu_amended 16 []).2.2.2.1 (by decide) (by decide)
